import Mathlib

/-!
Verification of the `macro` recorder/player (keval8solanki/macro).

This file gives a shallow embedding of the program's data model and of the
operations the specification talks about, translated from the Rust sources:

* `src/src/event.rs`    — the serializable event model and its JSON form;
* `src/src/record.rs`   — the recorder hook callback and `save_events`;
* `src/src/play.rs`     — `run_play` decoding and the `do_playback` loop;
* `src/src-tauri/src/play.rs` — the Tauri variant of `do_playback`;
* `src/src/bar_app.rs`  — the supervisor (`AppState`, toggle handlers,
  hotkey edge latches, `check_playback_status`).

Modelling conventions: machine integers are `Nat`/`Int` with explicit range
checks where the code's behaviour depends on them; `f64` values are modelled
as exact rationals (`Rat`), the usual real-arithmetic idealization of IEEE
doubles (serde_json's Ryu printing round-trips every finite double, and the
claims under study quantify over positive finite speeds); wall-clock instants
are abstract millisecond counters supplied with each observed event; the
cancellation flag read by `do_playback` is supplied as the list of values the
successive reads observe; child processes are abstract process ids whose
liveness is tracked by an environment set.

`rdev::Key` and `rdev::Button` are enums of an external dependency, consumed
opaquely by the repository.  `Key` below models the fragment of that
vocabulary the repository's own code names (the eight modifier keys matched
by the hook callbacks and the default trigger keys of `config.rs`), a few
representative ordinary keys, and the payload-carrying `Unknown(u32)`
variant; every remaining unit variant of the library enum behaves exactly
like the representative unit variants included here (serde serializes each
one as its bare name string). -/

namespace EventReplay

inductive Key
  | Alt
  | AltGr
  | ControlLeft
  | ControlRight
  | ShiftLeft
  | ShiftRight
  | MetaLeft
  | MetaRight
  | KeyR
  | Escape
  | KeyA
  | KeyB
  | Space
  | Num1
  | F1
  | Unknown (code : Nat)
  deriving DecidableEq

inductive Button
  | Left
  | Right
  | Middle
  | Unknown (code : Nat)
  deriving DecidableEq

/-- Model of finite `f64` values (exact rationals; see the header note). -/
abbrev F64 := Rat

/-- `SerializableEventType` from `src/src/event.rs`. -/
inductive SerializableEventType
  | KeyPress (key : Key)
  | KeyRelease (key : Key)
  | ButtonPress (button : Button)
  | ButtonRelease (button : Button)
  | MouseMove (x y : F64)
  | Wheel (delta_x delta_y : Int)
  deriving DecidableEq

/-- `SerializableEvent` from `src/src/event.rs`: an event type paired with
`delay_ms : u64`. -/
structure SerializableEvent where
  event_type : SerializableEventType
  delay_ms : Nat
  deriving DecidableEq

/-- `SerializableEvent::from_rdev`: the incoming `rdev` event types coincide
with the serializable ones, so the conversion is total and always `some`. -/
def SerializableEvent.from_rdev (event : SerializableEventType) (delay_ms : Nat) :
    Option SerializableEvent :=
  some ⟨event, delay_ms⟩

/-! ### JSON form (serde_json, as used by `save_events` / `run_play`)

`Json` is the abstract syntax of the serialized text; numbers are carried as
exact rationals, covering `u64`, `i64` and finite `f64` literals. -/

inductive Json
  | null
  | bool (b : Bool)
  | num (q : Rat)
  | str (s : String)
  | arr (items : List Json)
  | obj (fields : List (String × Json))

/-- serde encoding of `rdev::Key`: unit variants as their name string,
`Unknown(u32)` as an externally tagged one-field map. -/
def encodeKey : Key → Json
  | .Alt => .str "Alt"
  | .AltGr => .str "AltGr"
  | .ControlLeft => .str "ControlLeft"
  | .ControlRight => .str "ControlRight"
  | .ShiftLeft => .str "ShiftLeft"
  | .ShiftRight => .str "ShiftRight"
  | .MetaLeft => .str "MetaLeft"
  | .MetaRight => .str "MetaRight"
  | .KeyR => .str "KeyR"
  | .Escape => .str "Escape"
  | .KeyA => .str "KeyA"
  | .KeyB => .str "KeyB"
  | .Space => .str "Space"
  | .Num1 => .str "Num1"
  | .F1 => .str "F1"
  | .Unknown code => .obj [("Unknown", .num (code : Rat))]

def keyOfName : String → Option Key
  | "Alt" => some .Alt
  | "AltGr" => some .AltGr
  | "ControlLeft" => some .ControlLeft
  | "ControlRight" => some .ControlRight
  | "ShiftLeft" => some .ShiftLeft
  | "ShiftRight" => some .ShiftRight
  | "MetaLeft" => some .MetaLeft
  | "MetaRight" => some .MetaRight
  | "KeyR" => some .KeyR
  | "Escape" => some .Escape
  | "KeyA" => some .KeyA
  | "KeyB" => some .KeyB
  | "Space" => some .Space
  | "Num1" => some .Num1
  | "F1" => some .F1
  | _ => none

/-- serde decoding of a JSON number into `u32`. -/
def decodeU32 : Json → Option Nat
  | .num q => if q.den = 1 ∧ 0 ≤ q.num ∧ q.num < 2 ^ 32 then some q.num.toNat else none
  | _ => none

/-- serde decoding of a JSON number into `u8`. -/
def decodeU8 : Json → Option Nat
  | .num q => if q.den = 1 ∧ 0 ≤ q.num ∧ q.num < 2 ^ 8 then some q.num.toNat else none
  | _ => none

/-- serde decoding of a JSON number into `u64` (used for `delay_ms`). -/
def decodeU64 : Json → Option Nat
  | .num q => if q.den = 1 ∧ 0 ≤ q.num ∧ q.num < 2 ^ 64 then some q.num.toNat else none
  | _ => none

/-- serde decoding of a JSON number into `i64` (used for the wheel deltas). -/
def decodeI64 : Json → Option Int
  | .num q => if q.den = 1 ∧ -2 ^ 63 ≤ q.num ∧ q.num < 2 ^ 63 then some q.num else none
  | _ => none

/-- serde decoding of a JSON number into `f64` (exact in the `Rat` model). -/
def decodeF64 : Json → Option F64
  | .num q => some q
  | _ => none

def decodeKey : Json → Option Key
  | .str s => keyOfName s
  | .obj [("Unknown", payload)] => (decodeU32 payload).map Key.Unknown
  | _ => none

def encodeButton : Button → Json
  | .Left => .str "Left"
  | .Right => .str "Right"
  | .Middle => .str "Middle"
  | .Unknown code => .obj [("Unknown", .num (code : Rat))]

def decodeButton : Json → Option Button
  | .str "Left" => some .Left
  | .str "Right" => some .Right
  | .str "Middle" => some .Middle
  | .obj [("Unknown", payload)] => (decodeU8 payload).map Button.Unknown
  | _ => none

/-- serde encoding of `SerializableEventType` (externally tagged enum, struct
variants as field maps in declaration order). -/
def encodeEventType : SerializableEventType → Json
  | .KeyPress k => .obj [("KeyPress", encodeKey k)]
  | .KeyRelease k => .obj [("KeyRelease", encodeKey k)]
  | .ButtonPress b => .obj [("ButtonPress", encodeButton b)]
  | .ButtonRelease b => .obj [("ButtonRelease", encodeButton b)]
  | .MouseMove x y => .obj [("MouseMove", .obj [("x", .num x), ("y", .num y)])]
  | .Wheel dx dy => .obj [("Wheel", .obj [("delta_x", .num (dx : Rat)), ("delta_y", .num (dy : Rat))])]

def decodeEventType : Json → Option SerializableEventType
  | .obj [("KeyPress", payload)] => (decodeKey payload).map SerializableEventType.KeyPress
  | .obj [("KeyRelease", payload)] => (decodeKey payload).map SerializableEventType.KeyRelease
  | .obj [("ButtonPress", payload)] => (decodeButton payload).map SerializableEventType.ButtonPress
  | .obj [("ButtonRelease", payload)] => (decodeButton payload).map SerializableEventType.ButtonRelease
  | .obj [("MouseMove", .obj fields)] =>
    match fields.lookup "x", fields.lookup "y" with
    | some jx, some jy =>
      match decodeF64 jx, decodeF64 jy with
      | some x, some y => some (.MouseMove x y)
      | _, _ => none
    | _, _ => none
  | .obj [("Wheel", .obj fields)] =>
    match fields.lookup "delta_x", fields.lookup "delta_y" with
    | some jx, some jy =>
      match decodeI64 jx, decodeI64 jy with
      | some dx, some dy => some (.Wheel dx dy)
      | _, _ => none
    | _, _ => none
  | _ => none

/-- serde encoding of one `SerializableEvent` (struct as a field map). -/
def encodeEvent (e : SerializableEvent) : Json :=
  .obj [("event_type", encodeEventType e.event_type), ("delay_ms", .num (e.delay_ms : Rat))]

def decodeEvent : Json → Option SerializableEvent
  | .obj fields =>
    match fields.lookup "event_type", fields.lookup "delay_ms" with
    | some jt, some jd =>
      match decodeEventType jt, decodeU64 jd with
      | some et, some d => some ⟨et, d⟩
      | _, _ => none
    | _, _ => none
  | _ => none

/-- The serialization performed by `save_events` (`serde_json::to_writer` over
`Vec<SerializableEvent>`): a JSON array of encoded events, in order. -/
def encodeEvents (events : List SerializableEvent) : Json :=
  .arr (events.map encodeEvent)

def decodeEventList : List Json → Option (List SerializableEvent)
  | [] => some []
  | j :: js =>
    match decodeEvent j, decodeEventList js with
    | some e, some es => some (e :: es)
    | _, _ => none

/-- The deserialization performed by `run_play` (`serde_json::from_reader` into
`Vec<SerializableEvent>`): elementwise sequential decoding of the array. -/
def decodeEvents : Json → Option (List SerializableEvent)
  | .arr items => decodeEventList items
  | _ => none

/-- Range well-formedness of a key value (`Unknown` carries a `u32`). -/
def keyWf : Key → Bool
  | .Unknown code => code < 2 ^ 32
  | _ => true

/-- Range well-formedness of a button value (`Unknown` carries a `u8`). -/
def buttonWf : Button → Bool
  | .Unknown code => code < 2 ^ 8
  | _ => true

/-- Range well-formedness of an event type: payloads fit their Rust integer
types (`u32` key codes, `u8` button codes, `i64` wheel deltas). -/
def eventTypeWf : SerializableEventType → Bool
  | .KeyPress k => keyWf k
  | .KeyRelease k => keyWf k
  | .ButtonPress b => buttonWf b
  | .ButtonRelease b => buttonWf b
  | .MouseMove _ _ => true
  | .Wheel dx dy => decide (-2 ^ 63 ≤ dx) && decide (dx < 2 ^ 63) && decide (-2 ^ 63 ≤ dy) && decide (dy < 2 ^ 63)

/-- Range well-formedness of one event (`delay_ms` fits `u64`). -/
def eventWf (e : SerializableEvent) : Bool :=
  eventTypeWf e.event_type && decide (e.delay_ms < 2 ^ 64)

def eventsWf (events : List SerializableEvent) : Bool :=
  events.all eventWf

/-! ### Round-trip lemmas for the serialized form -/

theorem decodeU32_natCast (n : Nat) (h : n < 2 ^ 32) :
    decodeU32 (.num (n : Rat)) = some n := by
  simp only [decodeU32, Rat.den_natCast, Rat.num_natCast]
  rw [if_pos ⟨trivial, Int.natCast_nonneg n, by exact_mod_cast h⟩, Int.toNat_natCast]

theorem decodeU8_natCast (n : Nat) (h : n < 2 ^ 8) :
    decodeU8 (.num (n : Rat)) = some n := by
  simp only [decodeU8, Rat.den_natCast, Rat.num_natCast]
  rw [if_pos ⟨trivial, Int.natCast_nonneg n, by exact_mod_cast h⟩, Int.toNat_natCast]

theorem decodeU64_natCast (n : Nat) (h : n < 2 ^ 64) :
    decodeU64 (.num (n : Rat)) = some n := by
  simp only [decodeU64, Rat.den_natCast, Rat.num_natCast]
  rw [if_pos ⟨trivial, Int.natCast_nonneg n, by exact_mod_cast h⟩, Int.toNat_natCast]

theorem decodeI64_intCast (i : Int) (h1 : -2 ^ 63 ≤ i) (h2 : i < 2 ^ 63) :
    decodeI64 (.num (i : Rat)) = some i := by
  simp only [decodeI64, Rat.den_intCast, Rat.num_intCast]
  rw [if_pos ⟨trivial, h1, h2⟩]

theorem decodeKey_encodeKey (k : Key) (h : keyWf k = true) :
    decodeKey (encodeKey k) = some k := by
  cases k with
  | Unknown code =>
    simp only [keyWf, decide_eq_true_eq] at h
    simp only [encodeKey, decodeKey, decodeU32_natCast code h]
    rfl
  | _ => rfl

theorem decodeButton_encodeButton (b : Button) (h : buttonWf b = true) :
    decodeButton (encodeButton b) = some b := by
  cases b with
  | Unknown code =>
    simp only [buttonWf, decide_eq_true_eq] at h
    simp only [encodeButton, decodeButton, decodeU8_natCast code h]
    rfl
  | _ => rfl

theorem decodeEventType_encodeEventType (et : SerializableEventType)
    (h : eventTypeWf et = true) : decodeEventType (encodeEventType et) = some et := by
  cases et with
  | KeyPress k =>
    simp only [eventTypeWf] at h
    simp only [encodeEventType, decodeEventType, decodeKey_encodeKey k h]
    rfl
  | KeyRelease k =>
    simp only [eventTypeWf] at h
    simp only [encodeEventType, decodeEventType, decodeKey_encodeKey k h]
    rfl
  | ButtonPress b =>
    simp only [eventTypeWf] at h
    simp only [encodeEventType, decodeEventType, decodeButton_encodeButton b h]
    rfl
  | ButtonRelease b =>
    simp only [eventTypeWf] at h
    simp only [encodeEventType, decodeEventType, decodeButton_encodeButton b h]
    rfl
  | MouseMove x y => rfl
  | Wheel dx dy =>
    simp only [eventTypeWf, Bool.and_eq_true, decide_eq_true_eq] at h
    obtain ⟨⟨⟨h1, h2⟩, h3⟩, h4⟩ := h
    simp only [encodeEventType, decodeEventType, List.lookup]
    rw [show (("delta_x" == "delta_x") = true) from rfl,
      show (("delta_y" == "delta_x") = false) from rfl,
      show (("delta_y" == "delta_y") = true) from rfl]
    simp only [decodeI64_intCast dx h1 h2, decodeI64_intCast dy h3 h4]

theorem decodeEvent_encodeEvent (e : SerializableEvent) (h : eventWf e = true) :
    decodeEvent (encodeEvent e) = some e := by
  simp only [eventWf, Bool.and_eq_true, decide_eq_true_eq] at h
  obtain ⟨ht, hd⟩ := h
  cases e with
  | mk et d =>
    simp only [encodeEvent, decodeEvent, List.lookup]
    rw [show (("event_type" == "event_type") = true) from rfl,
      show (("delay_ms" == "event_type") = false) from rfl,
      show (("delay_ms" == "delay_ms") = true) from rfl]
    simp only at ht hd
    simp only [decodeEventType_encodeEventType et ht, decodeU64_natCast d hd]

theorem decodeEventList_map_encode (events : List SerializableEvent)
    (h : eventsWf events = true) : decodeEventList (events.map encodeEvent) = some events := by
  induction events with
  | nil => rfl
  | cons e es ih =>
    simp only [eventsWf, List.all_cons, Bool.and_eq_true] at h
    simp only [List.map_cons, decodeEventList, decodeEvent_encodeEvent e h.1,
      ih h.2]

/-- C1: for every event sequence whose payloads fit their Rust integer types
(which is every value representable in the program), decoding the JSON
produced by `save_events`-style encoding yields exactly the original
sequence: order, every discriminant, and the (finite) `f64` pointer
coordinates are preserved exactly. -/
theorem c1_serialization_roundtrip (events : List SerializableEvent)
    (h : eventsWf events = true) : decodeEvents (encodeEvents events) = some events := by
  simp only [encodeEvents, decodeEvents]
  exact decodeEventList_map_encode events h

/-- A sample sequence containing every event kind, exercising the round-trip
law at a concrete input (including fractional pointer coordinates). -/
def sampleEvents : List SerializableEvent :=
  [⟨.KeyPress .KeyA, 0⟩,
   ⟨.KeyRelease .KeyA, 50⟩,
   ⟨.KeyPress (.Unknown 179), 3⟩,
   ⟨.ButtonPress .Left, 12⟩,
   ⟨.ButtonRelease (.Unknown 9), 7⟩,
   ⟨.MouseMove (1271 / 2) (-355 / 4), 1⟩,
   ⟨.Wheel (-3) 7, 1000⟩]

/-- Witness for C1 at `sampleEvents`. -/
theorem c1_serialization_roundtrip_witness :
    decodeEvents (encodeEvents sampleEvents) = some sampleEvents :=
  c1_serialization_roundtrip sampleEvents (by decide)

/-! ### Player engine (`do_playback` in src/src/play.rs and src/src-tauri/src/play.rs)

The loop is embedded as a small-step machine.  One `playStep` performs one
iteration of the innermost control flow of `do_playback`: the repeat-count
check at the head of the `loop`, one 50 ms polling slot of the
repeat-interval wait, or the pre-emission flag check plus one sleep/emission
of the `for` loop.  Each step that reads the `stop_flag` consumes the value
of the next read (the `flag` argument) and counts it in `flagReads`; steps
that do not read the flag ignore the argument.  Sleeps and `simulate` calls
are recorded in `emitted` as (wait, event) pairs, in emission order.  Real
time is abstracted: the repeat-interval wait of `repeat_interval` seconds is
a sequence of `intervalPolls` flag checks 50 ms apart (`intervalPolls = 0`
exactly when `repeat_interval ≤ 0`, in which case the code skips the wait). -/

/-- Rust `as u64` applied to a nonnegative-or-negative float: truncation
toward zero with saturation at the `u64` bounds. -/
def castU64 (q : Rat) : Nat :=
  if q ≤ 0 then 0 else min q.floor.toNat (2 ^ 64 - 1)

/-- The per-event wait of `do_playback`: `(event.delay_ms as f64 / speed) as u64`. -/
def scaledDelayMs (delay_ms : Nat) (speed : Rat) : Nat :=
  castU64 ((delay_ms : Rat) / speed)

/-- The polling sleep used inside the repeat-interval wait
(`thread::sleep(Duration::from_millis(50))`). -/
def pollSleepMs : Nat := 50

/-- Arguments of `do_playback` (main binary variant). -/
structure PlayParams where
  events : List SerializableEvent
  speed : Rat
  repeatCount : Nat
  intervalPolls : Nat

/-- Control position inside `do_playback`. -/
inductive Phase
  | checkRepeat (count : Nat)
  | intervalWait (count : Nat) (polls : Nat)
  | inPass (count : Nat) (idx : Nat)
  | finished
  | stopped
  deriving DecidableEq

/-- Observable machine configuration: control position, the (wait, event)
emission trace so far, and how many times the stop flag has been read. -/
structure PlayConfig where
  phase : Phase
  emitted : List (Nat × SerializableEvent)
  flagReads : Nat

/-- One step of `do_playback` (src/src/play.rs, lines 196-244).  `flag` is the
value observed by the flag read performed in this step, if any. -/
def playStep (p : PlayParams) (c : PlayConfig) (flag : Bool) : PlayConfig :=
  match c.phase with
  | .checkRepeat count =>
    if 0 < p.repeatCount ∧ p.repeatCount ≤ count then { c with phase := .finished }
    else if 0 < count ∧ 0 < p.intervalPolls then { c with phase := .intervalWait count 0 }
    else { c with phase := .inPass count 0 }
  | .intervalWait count polls =>
    if polls < p.intervalPolls then
      if flag then { c with phase := .stopped, flagReads := c.flagReads + 1 }
      else { c with phase := .intervalWait count (polls + 1), flagReads := c.flagReads + 1 }
    else { c with phase := .inPass count 0 }
  | .inPass count idx =>
    match p.events[idx]? with
    | none => { c with phase := .checkRepeat (count + 1) }
    | some e =>
      if flag then { c with phase := .stopped, flagReads := c.flagReads + 1 }
      else
        { c with phase := .inPass count (idx + 1),
                 emitted := c.emitted ++ [(scaledDelayMs e.delay_ms p.speed, e)],
                 flagReads := c.flagReads + 1 }
  | .finished => c
  | .stopped => c

/-- Iterated stepping; the list holds the successive flag values supplied to
each step. -/
def playSteps (p : PlayParams) (c : PlayConfig) : List Bool → PlayConfig
  | [] => c
  | b :: bs => playSteps p (playStep p c b) bs

/-- Initial configuration of `do_playback` (`count = 0`, nothing emitted). -/
def playInit : PlayConfig :=
  ⟨.checkRepeat 0, [], 0⟩

/-- Arguments of the Tauri variant of `do_playback`
(src/src-tauri/src/play.rs), which has no repeat-interval wait. -/
structure TauriParams where
  events : List SerializableEvent
  speed : Rat
  repeatCount : Nat

/-- One step of the Tauri `do_playback` (src/src-tauri/src/play.rs, lines
113-144): same loop without the interval wait (the `intervalWait` phase is
unreachable from `playInit` here and is left inert). -/
def tauriStep (p : TauriParams) (c : PlayConfig) (flag : Bool) : PlayConfig :=
  match c.phase with
  | .checkRepeat count =>
    if 0 < p.repeatCount ∧ p.repeatCount ≤ count then { c with phase := .finished }
    else { c with phase := .inPass count 0 }
  | .intervalWait _ _ => c
  | .inPass count idx =>
    match p.events[idx]? with
    | none => { c with phase := .checkRepeat (count + 1) }
    | some e =>
      if flag then { c with phase := .stopped, flagReads := c.flagReads + 1 }
      else
        { c with phase := .inPass count (idx + 1),
                 emitted := c.emitted ++ [(scaledDelayMs e.delay_ms p.speed, e)],
                 flagReads := c.flagReads + 1 }
  | .finished => c
  | .stopped => c

def tauriSteps (p : TauriParams) (c : PlayConfig) : List Bool → PlayConfig
  | [] => c
  | b :: bs => tauriSteps p (tauriStep p c b) bs

/-- The emission wait law as a configuration invariant. -/
def WaitLaw (speed : Rat) (c : PlayConfig) : Prop :=
  ∀ w e, (w, e) ∈ c.emitted → w = scaledDelayMs e.delay_ms speed

theorem waitLaw_playStep (p : PlayParams) (c : PlayConfig) (b : Bool)
    (h : WaitLaw p.speed c) : WaitLaw p.speed (playStep p c b) := by
  unfold playStep
  cases hp : c.phase <;> simp only
  case checkRepeat count =>
    split
    · exact h
    · split <;> exact h
  case intervalWait count polls =>
    split
    · split <;> exact h
    · exact h
  case inPass count idx =>
    cases he : p.events[idx]? with
    | none => exact h
    | some e =>
      simp only
      split
      · exact h
      · intro w ev hmem
        simp only [List.mem_append, List.mem_singleton] at hmem
        rcases hmem with hmem | hmem
        · exact h w ev hmem
        · rw [Prod.mk.injEq] at hmem
          obtain ⟨h1, h2⟩ := hmem
          subst h2
          exact h1
  case finished => exact h
  case stopped => exact h

theorem waitLaw_playSteps (p : PlayParams) (c : PlayConfig) (bs : List Bool)
    (h : WaitLaw p.speed c) : WaitLaw p.speed (playSteps p c bs) := by
  induction bs generalizing c with
  | nil => exact h
  | cons b bs ih => exact ih _ (waitLaw_playStep p c b h)

theorem waitLaw_tauriStep (p : TauriParams) (c : PlayConfig) (b : Bool)
    (h : WaitLaw p.speed c) : WaitLaw p.speed (tauriStep p c b) := by
  unfold tauriStep
  cases hp : c.phase <;> simp only
  case checkRepeat count =>
    split <;> exact h
  case intervalWait count polls => exact h
  case inPass count idx =>
    cases he : p.events[idx]? with
    | none => exact h
    | some e =>
      simp only
      split
      · exact h
      · intro w ev hmem
        simp only [List.mem_append, List.mem_singleton] at hmem
        rcases hmem with hmem | hmem
        · exact h w ev hmem
        · rw [Prod.mk.injEq] at hmem
          obtain ⟨h1, h2⟩ := hmem
          subst h2
          exact h1
  case finished => exact h
  case stopped => exact h

theorem waitLaw_tauriSteps (p : TauriParams) (c : PlayConfig) (bs : List Bool)
    (h : WaitLaw p.speed c) : WaitLaw p.speed (tauriSteps p c bs) := by
  induction bs generalizing c with
  | nil => exact h
  | cons b bs ih => exact ih _ (waitLaw_tauriStep p c b h)

/-- C2: in both `do_playback` variants, every wait performed before an
emission — in every pass of every run, for every positive speed `k` — equals
the event's `delay_ms` divided by `k` and truncated toward zero to whole
milliseconds (`(delay_ms as f64 / speed) as u64`, idealizing `f64` arithmetic
by exact rationals). -/
theorem c2_wait_truncation_law (p : PlayParams) (t : TauriParams)
    (hp : 0 < p.speed) (ht : 0 < t.speed) (bs cs : List Bool) :
    (∀ w e, (w, e) ∈ (playSteps p playInit bs).emitted →
        w = castU64 ((e.delay_ms : Rat) / p.speed))
    ∧ (∀ w e, (w, e) ∈ (tauriSteps t playInit cs).emitted →
        w = castU64 ((e.delay_ms : Rat) / t.speed)) := by
  constructor
  · exact waitLaw_playSteps p playInit bs (fun w e hmem => by cases hmem)
  · exact waitLaw_tauriSteps t playInit cs (fun w e hmem => by cases hmem)

/-- Concrete playback parameters used by the C2 witness: one 100 ms-delay
event played at speed 3/2, one pass. -/
def c2Params : PlayParams :=
  ⟨[⟨.KeyPress .KeyA, 100⟩], 3 / 2, 1, 0⟩

/-- Witness for C2 over a concrete four-step run of `c2Params`: the single
emission's wait is exactly the truncated quotient of the formula. -/
theorem c2_wait_truncation_law_witness :
    (playSteps c2Params playInit [false, false, false, false]).emitted
      = [(scaledDelayMs 100 (3 / 2), ⟨.KeyPress .KeyA, 100⟩)]
    ∧ scaledDelayMs 100 (3 / 2) = castU64 (((100 : Nat) : Rat) / (3 / 2)) := by
  constructor
  · rfl
  · exact (c2_wait_truncation_law c2Params ⟨[], 1, 1⟩ (by norm_num [c2Params]) one_pos
      [false, false, false, false] []).1 (scaledDelayMs 100 (3 / 2))
      ⟨.KeyPress .KeyA, 100⟩
      (by rw [show (playSteps c2Params playInit [false, false, false, false]).emitted
            = [(scaledDelayMs 100 (3 / 2), ⟨.KeyPress .KeyA, 100⟩)] from rfl]
          exact List.mem_singleton.mpr rfl)

theorem emitted_playStep_true (p : PlayParams) (c : PlayConfig) :
    (playStep p c true).emitted = c.emitted := by
  unfold playStep
  cases c.phase
  case checkRepeat count =>
    simp only
    split
    · rfl
    · split <;> rfl
  case intervalWait count polls =>
    simp only
    split <;> rfl
  case inPass count idx =>
    simp only
    cases p.events[idx]? <;> rfl
  case finished => rfl
  case stopped => rfl

theorem emitted_playSteps_true (p : PlayParams) (c : PlayConfig) (bs : List Bool)
    (h : ∀ b ∈ bs, b = true) : (playSteps p c bs).emitted = c.emitted := by
  induction bs generalizing c with
  | nil => rfl
  | cons b bs ih =>
    have hb : b = true := h b (List.mem_cons_self b bs)
    subst hb
    rw [playSteps, ih (playStep p c true) (fun x hx => h x (List.mem_cons_of_mem _ hx)),
      emitted_playStep_true]

/-- C4: once the stop flag is observed `true`, no further event is emitted —
within a pass, the check made before each event emission transitions the loop
to `stopped` at once, before the sleep and the `simulate` call, abandoning
the current pass; during the repeat-interval wait each polling slot likewise
stops the loop at once; and the polling granularity of that wait is 50 ms,
within the 100 ms bound. -/
theorem c4_cancellation_law (p : PlayParams) :
    (∀ c bs, (∀ b ∈ bs, b = true) → (playSteps p c bs).emitted = c.emitted)
    ∧ (∀ c count idx e, c.phase = .inPass count idx → p.events[idx]? = some e →
        playStep p c true = { c with phase := .stopped, flagReads := c.flagReads + 1 })
    ∧ (∀ c count polls, c.phase = .intervalWait count polls → polls < p.intervalPolls →
        playStep p c true = { c with phase := .stopped, flagReads := c.flagReads + 1 })
    ∧ pollSleepMs ≤ 100 := by
  refine ⟨fun c bs h => emitted_playSteps_true p c bs h, ?_, ?_, by decide⟩
  · intro c count idx e hphase he
    unfold playStep
    rw [hphase]
    simp only
    rw [he]
    simp
  · intro c count polls hphase hlt
    unfold playStep
    rw [hphase]
    simp only
    rw [if_pos hlt]
    simp

/-- Witness for C4: a configuration about to emit and one inside the interval
wait, each stopped by a `true` flag without emitting, over concrete
parameters; plus a two-step all-true run emitting nothing. -/
theorem c4_cancellation_law_witness :
    (playSteps ⟨[⟨.KeyPress .KeyA, 10⟩], 1, 0, 3⟩ ⟨.inPass 0 0, [], 0⟩ [true, true]).emitted = []
    ∧ playStep ⟨[⟨.KeyPress .KeyA, 10⟩], 1, 0, 3⟩ ⟨.inPass 0 0, [], 0⟩ true = ⟨.stopped, [], 1⟩
    ∧ playStep ⟨[⟨.KeyPress .KeyA, 10⟩], 1, 0, 3⟩ ⟨.intervalWait 1 0, [], 0⟩ true = ⟨.stopped, [], 1⟩
    ∧ pollSleepMs ≤ 100 := by
  obtain ⟨h1, h2, h3, h4⟩ := c4_cancellation_law ⟨[⟨.KeyPress .KeyA, 10⟩], 1, 0, 3⟩
  exact ⟨h1 ⟨.inPass 0 0, [], 0⟩ [true, true] (by simp),
    h2 ⟨.inPass 0 0, [], 0⟩ 0 0 ⟨.KeyPress .KeyA, 10⟩ rfl rfl,
    h3 ⟨.intervalWait 1 0, [], 0⟩ 1 0 rfl (by decide), h4⟩

/-- The emissions of one full pass: every event of the sequence, in order,
with its speed-scaled wait. -/
def passEmits (p : PlayParams) : List (Nat × SerializableEvent) :=
  p.events.map (fun e => (scaledDelayMs e.delay_ms p.speed, e))

theorem playSteps_append (p : PlayParams) (c : PlayConfig) (xs ys : List Bool) :
    playSteps p c (xs ++ ys) = playSteps p (playSteps p c xs) ys := by
  induction xs generalizing c with
  | nil => rfl
  | cons x xs ih => rw [List.cons_append, playSteps, playSteps, ih]

theorem inPass_run (p : PlayParams) (n : Nat) :
    ∀ (c : PlayConfig) (count idx : Nat), c.phase = .inPass count idx →
      p.events.length - idx = n →
      playSteps p c (List.replicate (n + 1) false) =
        { c with phase := .checkRepeat (count + 1),
                 emitted := c.emitted ++
                   (p.events.drop idx).map (fun e => (scaledDelayMs e.delay_ms p.speed, e)),
                 flagReads := c.flagReads + (p.events.length - idx) } := by
  induction n with
  | zero =>
    intro c count idx hphase hn
    have hle : p.events.length ≤ idx := Nat.sub_eq_zero_iff_le.mp hn
    have hnone : p.events[idx]? = none := List.getElem?_eq_none hle
    have hdrop : p.events.drop idx = [] := List.drop_eq_nil_of_le hle
    rw [List.replicate_succ, List.replicate_zero, playSteps, playSteps]
    unfold playStep
    rw [hphase]
    simp only
    rw [hnone]
    simp [hdrop, hn]
  | succ m ih =>
    intro c count idx hphase hn
    have hidx : idx < p.events.length := by omega
    have he : p.events[idx]? = some p.events[idx] := List.getElem?_eq_getElem hidx
    rw [List.replicate_succ, playSteps]
    have hstep : playStep p c false =
        { c with phase := .inPass count (idx + 1),
                 emitted := c.emitted ++ [(scaledDelayMs p.events[idx].delay_ms p.speed, p.events[idx])],
                 flagReads := c.flagReads + 1 } := by
      unfold playStep
      rw [hphase]
      simp only
      rw [he]
      simp
    rw [hstep, ih _ count (idx + 1) rfl (by omega)]
    rw [List.drop_eq_getElem_cons hidx, List.map_cons]
    simp only [PlayConfig.mk.injEq, true_and, List.append_assoc, List.singleton_append]
    omega

theorem interval_run (p : PlayParams) (n : Nat) :
    ∀ (c : PlayConfig) (count polls : Nat), c.phase = .intervalWait count polls →
      p.intervalPolls - polls = n →
      playSteps p c (List.replicate (n + 1) false) =
        { c with phase := .inPass count 0, flagReads := c.flagReads + n } := by
  induction n with
  | zero =>
    intro c count polls hphase hn
    rw [List.replicate_succ, List.replicate_zero, playSteps, playSteps]
    unfold playStep
    rw [hphase]
    simp only
    rw [if_neg (by omega : ¬polls < p.intervalPolls)]
    simp
  | succ m ih =>
    intro c count polls hphase hn
    have hlt : polls < p.intervalPolls := by omega
    rw [List.replicate_succ, playSteps]
    have hstep : playStep p c false =
        { c with phase := .intervalWait count (polls + 1), flagReads := c.flagReads + 1 } := by
      unfold playStep
      rw [hphase]
      simp only
      rw [if_pos hlt]
      simp
    rw [hstep, ih _ count (polls + 1) rfl (by omega)]
    simp only [PlayConfig.mk.injEq, true_and]
    omega

theorem checkRepeat_step_go (p : PlayParams) (c : PlayConfig) (count : Nat)
    (hphase : c.phase = .checkRepeat count)
    (hnf : ¬(0 < p.repeatCount ∧ p.repeatCount ≤ count)) :
    playStep p c false =
      if 0 < count ∧ 0 < p.intervalPolls then { c with phase := .intervalWait count 0 }
      else { c with phase := .inPass count 0 } := by
  unfold playStep
  rw [hphase]
  simp only
  rw [if_neg hnf]

/-- From the head repeat check, with the flag never set and the run not yet
exhausted, one full pass executes: control returns to the repeat check with
`count` incremented and exactly the pass's emissions appended. -/
theorem pass_run (p : PlayParams) (c : PlayConfig) (count : Nat)
    (hphase : c.phase = .checkRepeat count)
    (hnf : ¬(0 < p.repeatCount ∧ p.repeatCount ≤ count)) :
    ∃ n r, playSteps p c (List.replicate n false) =
      { c with phase := .checkRepeat (count + 1),
               emitted := c.emitted ++ passEmits p,
               flagReads := c.flagReads + r } := by
  by_cases hI : 0 < count ∧ 0 < p.intervalPolls
  · refine ⟨1 + ((p.intervalPolls + 1) + (p.events.length + 1)),
      p.intervalPolls + p.events.length, ?_⟩
    rw [List.replicate_add, playSteps_append]
    have h1 : playSteps p c (List.replicate 1 false) = { c with phase := .intervalWait count 0 } := by
      rw [show List.replicate 1 false = [false] from rfl, playSteps, playSteps,
        checkRepeat_step_go p c count hphase hnf, if_pos hI]
    rw [h1, List.replicate_add, playSteps_append,
      interval_run p p.intervalPolls _ count 0 rfl (by omega),
      inPass_run p p.events.length _ count 0 rfl (by omega)]
    simp only [PlayConfig.mk.injEq, true_and, List.drop_zero, passEmits]
    omega
  · refine ⟨1 + (p.events.length + 1), p.events.length, ?_⟩
    rw [List.replicate_add, playSteps_append]
    have h1 : playSteps p c (List.replicate 1 false) = { c with phase := .inPass count 0 } := by
      rw [show List.replicate 1 false = [false] from rfl, playSteps, playSteps,
        checkRepeat_step_go p c count hphase hnf, if_neg hI]
    rw [h1, inPass_run p p.events.length _ count 0 rfl (by omega)]
    simp only [PlayConfig.mk.injEq, true_and, List.drop_zero, passEmits]
    omega

/-- `m` consecutive full passes from the head repeat check. -/
theorem passes_run (p : PlayParams) (m : Nat) :
    ∀ (c : PlayConfig) (count : Nat), c.phase = .checkRepeat count →
      (p.repeatCount = 0 ∨ count + m ≤ p.repeatCount) →
      ∃ n r, playSteps p c (List.replicate n false) =
        { c with phase := .checkRepeat (count + m),
                 emitted := c.emitted ++ (List.replicate m (passEmits p)).flatten,
                 flagReads := c.flagReads + r } := by
  induction m with
  | zero =>
    intro c count hphase _
    refine ⟨0, 0, ?_⟩
    simp only [List.replicate_zero, playSteps, List.flatten_nil, List.append_nil,
      Nat.add_zero]
    cases c
    simp_all
  | succ m ih =>
    intro c count hphase hok
    have hnf : ¬(0 < p.repeatCount ∧ p.repeatCount ≤ count) := by
      rcases hok with h | h <;> omega
    obtain ⟨n1, r1, h1⟩ := pass_run p c count hphase hnf
    obtain ⟨n2, r2, h2⟩ := ih
      { c with phase := .checkRepeat (count + 1),
               emitted := c.emitted ++ passEmits p,
               flagReads := c.flagReads + r1 }
      (count + 1) rfl
      (by rcases hok with h | h
          · exact Or.inl h
          · exact Or.inr (by omega))
    refine ⟨n1 + n2, r1 + r2, ?_⟩
    rw [List.replicate_add, playSteps_append, h1, h2]
    simp only [PlayConfig.mk.injEq]
    refine ⟨by rw [show count + 1 + m = count + (m + 1) from by omega], ?_, by omega⟩
    rw [List.replicate_succ, List.flatten_cons, List.append_assoc]

theorem finished_absorb (p : PlayParams) :
    ∀ (bs : List Bool) (c : PlayConfig), c.phase = .finished →
      playSteps p c bs = c := by
  intro bs
  induction bs with
  | nil => intro c _; rfl
  | cons b bs ih =>
    intro c h
    have hstep : playStep p c b = c := by
      unfold playStep
      rw [h]
    rw [playSteps, hstep, ih c h]

theorem noTerm_playStep (p : PlayParams) (h0 : p.repeatCount = 0) (c : PlayConfig)
    (h1 : c.phase ≠ .finished) (h2 : c.phase ≠ .stopped) :
    (playStep p c false).phase ≠ .finished ∧ (playStep p c false).phase ≠ .stopped := by
  unfold playStep
  cases hp : c.phase
  case checkRepeat count =>
    simp only [h0]
    rw [if_neg (by simp)]
    split <;> simp
  case intervalWait count polls =>
    simp only
    split
    · simp
    · simp
  case inPass count idx =>
    simp only
    cases p.events[idx]? <;> simp
  case finished => exact absurd hp h1
  case stopped => exact absurd hp h2

theorem noTerm_playSteps (p : PlayParams) (h0 : p.repeatCount = 0) :
    ∀ (bs : List Bool) (c : PlayConfig), (∀ b ∈ bs, b = false) →
      c.phase ≠ .finished → c.phase ≠ .stopped →
      (playSteps p c bs).phase ≠ .finished ∧ (playSteps p c bs).phase ≠ .stopped := by
  intro bs
  induction bs with
  | nil => intro c _ h1 h2; exact ⟨h1, h2⟩
  | cons b bs ih =>
    intro c hb h1 h2
    have hbf : b = false := hb b (List.mem_cons_self b bs)
    subst hbf
    obtain ⟨g1, g2⟩ := noTerm_playStep p h0 c h1 h2
    exact ih _ (fun x hx => hb x (List.mem_cons_of_mem _ hx)) g1 g2

/-- C3: with the cancel flag never set, `do_playback` with
`repeat_count = N > 0` performs exactly `N` full passes — its emission trace
on termination is `N` copies of the sequence's pass, in order — and reaches
the terminated control state, which is absorbing (the function returns);
with `repeat_count = 0` it never reaches a terminated control state, however
many steps are taken: it repeats without bound. -/
theorem c3_repeat_count_law (p : PlayParams) (N : Nat) (hN : p.repeatCount = N) :
    (0 < N → ∃ n, (playSteps p playInit (List.replicate n false)).phase = .finished
      ∧ (playSteps p playInit (List.replicate n false)).emitted
          = (List.replicate N (passEmits p)).flatten)
    ∧ (N = 0 → ∀ bs, (∀ b ∈ bs, b = false) →
        (playSteps p playInit bs).phase ≠ .finished
        ∧ (playSteps p playInit bs).phase ≠ .stopped)
    ∧ (∀ (bs : List Bool) (c : PlayConfig), c.phase = .finished → playSteps p c bs = c) := by
  refine ⟨?_, ?_, fun bs c h => finished_absorb p bs c h⟩
  · intro hpos
    obtain ⟨n, r, hreach⟩ := passes_run p N playInit 0 rfl (Or.inr (by omega))
    refine ⟨n + 1, ?_⟩
    rw [List.replicate_add, playSteps_append, hreach,
      show List.replicate 1 false = [false] from rfl, playSteps, playSteps]
    have hstep : ∀ cc : PlayConfig, cc.phase = .checkRepeat (0 + N) →
        playStep p cc false = { cc with phase := .finished } := by
      intro cc hcc
      unfold playStep
      rw [hcc]
      simp only
      rw [if_pos ⟨by omega, by omega⟩]
    rw [hstep _ rfl]
    refine ⟨rfl, ?_⟩
    simp [playInit]
  · intro h0 bs hb
    exact noTerm_playSteps p (by omega) bs playInit hb (by simp [playInit]) (by simp [playInit])

/-- Witness for C3: a one-event sequence with `repeat_count = 2` finishes with
its pass emitted twice; the terminated state absorbs further steps; and at a
concrete all-false run the `repeat_count = 0` machine (over the same events)
is still unterminated. -/
theorem c3_repeat_count_law_witness :
    (∃ n, (playSteps ⟨[⟨.KeyPress .KeyA, 40⟩], 2, 2, 0⟩ playInit (List.replicate n false)).phase = .finished
      ∧ (playSteps ⟨[⟨.KeyPress .KeyA, 40⟩], 2, 2, 0⟩ playInit (List.replicate n false)).emitted
          = (List.replicate 2 (passEmits ⟨[⟨.KeyPress .KeyA, 40⟩], 2, 2, 0⟩)).flatten)
    ∧ ((playSteps ⟨[⟨.KeyPress .KeyA, 40⟩], 2, 0, 0⟩ playInit [false, false, false]).phase ≠ .finished
      ∧ (playSteps ⟨[⟨.KeyPress .KeyA, 40⟩], 2, 0, 0⟩ playInit [false, false, false]).phase ≠ .stopped) := by
  constructor
  · exact (c3_repeat_count_law ⟨[⟨.KeyPress .KeyA, 40⟩], 2, 2, 0⟩ 2 rfl).1 (by omega)
  · exact (c3_repeat_count_law ⟨[⟨.KeyPress .KeyA, 40⟩], 2, 0, 0⟩ 0 rfl).2.1 rfl
      [false, false, false] (by simp)

/-- The busy-spin invariant of C10: control alternates between the head repeat
check and the head of an empty pass; nothing is emitted and the flag is never
read. -/
def SpinInv (c : PlayConfig) : Prop :=
  (∃ k, c.phase = .checkRepeat k ∨ c.phase = .inPass k 0)
  ∧ c.emitted = [] ∧ c.flagReads = 0

theorem spinInv_playStep (p : PlayParams) (h1 : p.events = []) (h2 : p.repeatCount = 0)
    (h3 : p.intervalPolls = 0) (c : PlayConfig) (b : Bool) (h : SpinInv c) :
    SpinInv (playStep p c b) := by
  obtain ⟨⟨k, hk | hk⟩, he, hr⟩ := h
  · refine ⟨⟨k, Or.inr ?_⟩, ?_, ?_⟩ <;>
      simp only [playStep, hk, h2, h3, Nat.lt_irrefl, false_and, and_false, if_false, he, hr]
  · refine ⟨⟨k + 1, Or.inl ?_⟩, ?_, ?_⟩ <;>
      simp only [playStep, hk, h1, List.getElem?_nil, he, hr]

theorem spinInv_playSteps (p : PlayParams) (h1 : p.events = []) (h2 : p.repeatCount = 0)
    (h3 : p.intervalPolls = 0) (c : PlayConfig) (bs : List Bool) (h : SpinInv c) :
    SpinInv (playSteps p c bs) := by
  induction bs generalizing c with
  | nil => exact h
  | cons b bs ih => exact ih _ (spinInv_playStep p h1 h2 h3 c b h)

theorem spinInv_tauriStep (t : TauriParams) (t1 : t.events = []) (t2 : t.repeatCount = 0)
    (c : PlayConfig) (b : Bool) (h : SpinInv c) : SpinInv (tauriStep t c b) := by
  obtain ⟨⟨k, hk | hk⟩, he, hr⟩ := h
  · refine ⟨⟨k, Or.inr ?_⟩, ?_, ?_⟩ <;>
      simp only [tauriStep, hk, t2, Nat.lt_irrefl, false_and, if_false, he, hr]
  · refine ⟨⟨k + 1, Or.inl ?_⟩, ?_, ?_⟩ <;>
      simp only [tauriStep, hk, t1, List.getElem?_nil, he, hr]

theorem spinInv_tauriSteps (t : TauriParams) (t1 : t.events = []) (t2 : t.repeatCount = 0)
    (c : PlayConfig) (bs : List Bool) (h : SpinInv c) : SpinInv (tauriSteps t c bs) := by
  induction bs generalizing c with
  | nil => exact h
  | cons b bs ih => exact ih _ (spinInv_tauriStep t t1 t2 c b h)

/-- C10: with an empty event sequence, `repeat_count = 0` and (in the main
variant) `repeat_interval ≤ 0` so the interval wait is skipped, `do_playback`
contains no flag check point at all: whatever values the cancel flag takes,
the loop never reads it, never reaches a terminated control state, and
emits nothing — it spins forever.  The same holds for the Tauri variant,
which has no interval wait, for any empty sequence with `repeat_count = 0`. -/
theorem c10_no_checkpoint_spin (p : PlayParams) (t : TauriParams)
    (h1 : p.events = []) (h2 : p.repeatCount = 0) (h3 : p.intervalPolls = 0)
    (t1 : t.events = []) (t2 : t.repeatCount = 0) (bs cs : List Bool) :
    ((playSteps p playInit bs).flagReads = 0 ∧ (playSteps p playInit bs).emitted = []
      ∧ (playSteps p playInit bs).phase ≠ .finished ∧ (playSteps p playInit bs).phase ≠ .stopped)
    ∧ ((tauriSteps t playInit cs).flagReads = 0 ∧ (tauriSteps t playInit cs).emitted = []
      ∧ (tauriSteps t playInit cs).phase ≠ .finished ∧ (tauriSteps t playInit cs).phase ≠ .stopped) := by
  have hinit : SpinInv playInit := ⟨⟨0, Or.inl rfl⟩, rfl, rfl⟩
  obtain ⟨⟨k, hk⟩, he, hr⟩ := spinInv_playSteps p h1 h2 h3 playInit bs hinit
  obtain ⟨⟨m, hm⟩, te, tr⟩ := spinInv_tauriSteps t t1 t2 playInit cs hinit
  refine ⟨⟨hr, he, ?_, ?_⟩, ⟨tr, te, ?_, ?_⟩⟩ <;>
    rcases hk with hk | hk <;> try rcases hm with hm | hm
  all_goals simp_all

/-- Witness for C10: both machines, three steps with the flag set the whole
time — no read, no emission, no termination. -/
theorem c10_no_checkpoint_spin_witness :
    ((playSteps ⟨[], 1, 0, 0⟩ playInit [true, true, true]).flagReads = 0
      ∧ (playSteps ⟨[], 1, 0, 0⟩ playInit [true, true, true]).emitted = []
      ∧ (playSteps ⟨[], 1, 0, 0⟩ playInit [true, true, true]).phase ≠ .finished
      ∧ (playSteps ⟨[], 1, 0, 0⟩ playInit [true, true, true]).phase ≠ .stopped)
    ∧ ((tauriSteps ⟨[], 1, 0⟩ playInit [true, true, true]).flagReads = 0
      ∧ (tauriSteps ⟨[], 1, 0⟩ playInit [true, true, true]).emitted = []
      ∧ (tauriSteps ⟨[], 1, 0⟩ playInit [true, true, true]).phase ≠ .finished
      ∧ (tauriSteps ⟨[], 1, 0⟩ playInit [true, true, true]).phase ≠ .stopped) :=
  c10_no_checkpoint_spin ⟨[], 1, 0, 0⟩ ⟨[], 1, 0⟩ rfl rfl rfl rfl rfl
    [true, true, true] [true, true, true]

/-! ### Recorder engine (`run_record` in src/src/record.rs)

The global hook callback is embedded as one pure transition per observed
event.  Each observed event arrives with the wall-clock instant `now`
(milliseconds); `SystemTime::duration_since` is the truncated subtraction
`now - last_time` (the code `unwrap`s, assuming a non-decreasing clock). -/

inductive Modifier
  | Cmd
  | Alt
  | Ctrl
  | Shift
  deriving DecidableEq

/-- `KeyCombo` from src/src/config.rs. -/
structure KeyCombo where
  modifiers : List Modifier
  trigger : Key
  deriving DecidableEq

/-- `KeyMaps` from src/src/config.rs (recorder: start/stop combos). -/
structure KeyMaps where
  start_recording : KeyCombo
  stop_recording : KeyCombo
  deriving DecidableEq

/-- `KeyMaps::default` from src/src/config.rs. -/
def defaultKeyMaps : KeyMaps :=
  ⟨⟨[.Cmd, .Alt], .KeyR⟩, ⟨[.Cmd, .Alt], .Escape⟩⟩

/-- `RecorderState` from src/src/record.rs. -/
structure RecorderState where
  is_recording : Bool
  cmd_pressed : Bool
  alt_pressed : Bool
  ctrl_pressed : Bool
  shift_pressed : Bool
  events : List SerializableEvent
  last_time : Nat
  deriving DecidableEq

/-- The modifier-tracking `match` at the head of the recorder callback. -/
def updateModifiers (s : RecorderState) (event : SerializableEventType) : RecorderState :=
  match event with
  | .KeyPress .MetaLeft | .KeyPress .MetaRight => { s with cmd_pressed := true }
  | .KeyRelease .MetaLeft | .KeyRelease .MetaRight => { s with cmd_pressed := false }
  | .KeyPress .Alt | .KeyPress .AltGr => { s with alt_pressed := true }
  | .KeyRelease .Alt | .KeyRelease .AltGr => { s with alt_pressed := false }
  | .KeyPress .ControlLeft | .KeyPress .ControlRight => { s with ctrl_pressed := true }
  | .KeyRelease .ControlLeft | .KeyRelease .ControlRight => { s with ctrl_pressed := false }
  | .KeyPress .ShiftLeft | .KeyPress .ShiftRight => { s with shift_pressed := true }
  | .KeyRelease .ShiftLeft | .KeyRelease .ShiftRight => { s with shift_pressed := false }
  | _ => s

/-- The `check_modifiers` closure of the callback: every modifier of the combo
is currently held. -/
def checkModifiers (s : RecorderState) (modifiers : List Modifier) : Bool :=
  modifiers.all fun m =>
    match m with
    | .Cmd => s.cmd_pressed
    | .Alt => s.alt_pressed
    | .Ctrl => s.ctrl_pressed
    | .Shift => s.shift_pressed

/-- Externally visible effect of one callback invocation. -/
inductive RecAction
  | observed
  | discardedStartHotkey
  | savedAndExited (events : List SerializableEvent)
  | recorded (event : SerializableEvent)
  deriving DecidableEq

/-- The tail of the callback: while recording, convert the observed event with
the elapsed delay and append it (and persist). -/
def recordCapture (s : RecorderState) (event : SerializableEventType) (now : Nat) :
    RecorderState × RecAction :=
  if s.is_recording then
    match SerializableEvent.from_rdev event (now - s.last_time) with
    | some e => ({ s with last_time := now, events := s.events ++ [e] }, .recorded e)
    | none => ({ s with last_time := now }, .observed)
  else (s, .observed)

/-- One invocation of the recorder hook callback (src/src/record.rs, lines
89-127): modifier tracking, then the start-hotkey edge (only while not
recording; the event is discarded), then the stop-hotkey edge (only while
recording; saves and exits), then capture. -/
def recordStep (keymaps : KeyMaps) (s : RecorderState) (event : SerializableEventType)
    (now : Nat) : RecorderState × RecAction :=
  let s := updateModifiers s event
  match event with
  | .KeyPress key =>
    if key = keymaps.start_recording.trigger
        ∧ checkModifiers s keymaps.start_recording.modifiers = true
        ∧ s.is_recording = false then
      ({ s with is_recording := true, events := [], last_time := now }, .discardedStartHotkey)
    else if key = keymaps.stop_recording.trigger
        ∧ checkModifiers s keymaps.stop_recording.modifiers = true
        ∧ s.is_recording = true then
      ({ s with is_recording := false }, .savedAndExited s.events)
    else recordCapture s event now
  | _ => recordCapture s event now

theorem updateModifiers_is_recording (s : RecorderState) (e : SerializableEventType) :
    (updateModifiers s e).is_recording = s.is_recording := by
  unfold updateModifiers
  split <;> rfl

theorem updateModifiers_events (s : RecorderState) (e : SerializableEventType) :
    (updateModifiers s e).events = s.events := by
  unfold updateModifiers
  split <;> rfl

theorem updateModifiers_last_time (s : RecorderState) (e : SerializableEventType) :
    (updateModifiers s e).last_time = s.last_time := by
  unfold updateModifiers
  split <;> rfl

/-- C7 counterexample state: recording is active, no modifiers required. -/
def c7State : RecorderState :=
  ⟨true, false, false, false, false, [], 0⟩

/-- C7 counterexample keymaps: start = bare `KeyR`, stop = bare `Escape`. -/
def c7Keymaps : KeyMaps :=
  ⟨⟨[], .KeyR⟩, ⟨[], .Escape⟩⟩

/-- C7 counterexample: while recording, a press of the configured
start-recording hotkey (its combo satisfied) is appended to the sequence —
the callback discards the start hotkey only on the edge that begins
recording, so it is not true that every control-hotkey press observed while
recording is excluded from the sequence. -/
theorem c7_start_hotkey_recorded_counterexample :
    (recordStep c7Keymaps c7State (.KeyPress .KeyR) 5).1.events
      = [⟨.KeyPress .KeyR, 5⟩]
    ∧ (recordStep c7Keymaps c7State (.KeyPress .KeyR) 5).2
      = .recorded ⟨.KeyPress .KeyR, 5⟩
    ∧ c7State.is_recording = true
    ∧ c7Keymaps.start_recording.trigger = .KeyR
    ∧ checkModifiers (updateModifiers c7State (.KeyPress .KeyR))
        c7Keymaps.start_recording.modifiers = true := by
  decide

/-- C7 (amended): the recorder transitions exactly as the code does.
(1) A start-hotkey press (trigger with its modifiers held) while not
recording starts recording, clears the buffer, resets the delay clock to
`now`, and discards the hotkey event itself.  (2) While recording, any key
press that is not a satisfied stop-hotkey press — including a satisfied
start-hotkey press — is appended with delay `now - last_time`.  (3) A
satisfied stop-hotkey press while recording saves the buffer and exits
without appending. -/
theorem c7_recorder_edge_law (km : KeyMaps) (s : RecorderState) (key : Key) (now : Nat) :
    (s.is_recording = false → key = km.start_recording.trigger →
      checkModifiers (updateModifiers s (.KeyPress key)) km.start_recording.modifiers = true →
      recordStep km s (.KeyPress key) now
        = ({ updateModifiers s (.KeyPress key) with
               is_recording := true, events := [], last_time := now },
           .discardedStartHotkey))
    ∧ (s.is_recording = true →
        ¬(key = km.stop_recording.trigger
          ∧ checkModifiers (updateModifiers s (.KeyPress key)) km.stop_recording.modifiers = true) →
        recordStep km s (.KeyPress key) now
          = ({ updateModifiers s (.KeyPress key) with
                 last_time := now,
                 events := s.events ++ [⟨.KeyPress key, now - s.last_time⟩] },
             .recorded ⟨.KeyPress key, now - s.last_time⟩))
    ∧ (s.is_recording = true → key = km.stop_recording.trigger →
        checkModifiers (updateModifiers s (.KeyPress key)) km.stop_recording.modifiers = true →
        recordStep km s (.KeyPress key) now
          = ({ updateModifiers s (.KeyPress key) with is_recording := false },
             .savedAndExited s.events)) := by
  refine ⟨?_, ?_, ?_⟩
  · intro hrec htr hmods
    unfold recordStep
    simp only
    rw [if_pos ⟨htr, hmods, by rw [updateModifiers_is_recording]; exact hrec⟩]
  · intro hrec hnstop
    unfold recordStep
    simp only
    rw [if_neg (by
        rintro ⟨_, _, h3⟩
        rw [updateModifiers_is_recording] at h3
        rw [hrec] at h3
        cases h3),
      if_neg (by rintro ⟨h1, h2, _⟩; exact hnstop ⟨h1, h2⟩)]
    unfold recordCapture
    rw [if_pos (by rw [updateModifiers_is_recording]; exact hrec)]
    simp only [SerializableEvent.from_rdev, updateModifiers_last_time, updateModifiers_events]
  · intro hrec htr hmods
    unfold recordStep
    simp only
    rw [if_neg (by
        rintro ⟨_, _, h3⟩
        rw [updateModifiers_is_recording] at h3
        rw [hrec] at h3
        cases h3),
      if_pos ⟨htr, hmods, by rw [updateModifiers_is_recording]; exact hrec⟩,
      updateModifiers_events]

/-- Witness for C7's amended law: with the default keymaps, Cmd+Alt held and
not recording, pressing `R` starts recording with a cleared buffer and clock
reset to 7; while recording, a plain `A` press at 12 is appended with
delay 12. -/
theorem c7_recorder_edge_law_witness :
    recordStep defaultKeyMaps ⟨false, true, true, false, false, [⟨.KeyPress .Space, 1⟩], 0⟩
        (.KeyPress .KeyR) 7
      = (⟨true, true, true, false, false, [], 7⟩, .discardedStartHotkey)
    ∧ recordStep defaultKeyMaps ⟨true, false, false, false, false, [], 0⟩
        (.KeyPress .KeyA) 12
      = (⟨true, false, false, false, false, [⟨.KeyPress .KeyA, 12⟩], 12⟩,
         .recorded ⟨.KeyPress .KeyA, 12⟩) := by
  constructor
  · exact (c7_recorder_edge_law defaultKeyMaps
      ⟨false, true, true, false, false, [⟨.KeyPress .Space, 1⟩], 0⟩ .KeyR 7).1
      rfl rfl (by decide)
  · exact (c7_recorder_edge_law defaultKeyMaps
      ⟨true, false, false, false, false, [], 0⟩ .KeyA 12).2.1
      rfl (by decide)

/-! ### Process supervisor (`BarApp` in src/src/bar_app.rs)

`AppState` is embedded with child handles as abstract process ids.  The
fallible externals of each handler are supplied as oracle arguments: the
result of `Command::spawn` (`some pid` on success), the fresh temporary path,
and the file-picker result.  Each handler below is the net state transition
and observable outcome of the corresponding `BarApp` method; sequential field
mutations of the source are netted per branch. -/

structure AppState where
  is_recording : Bool
  recording_process : Option Nat
  playback_process : Option Nat
  playback_speed : Rat
  repeat_count : Nat
  repeat_interval : Rat
  pending_playback : Option String
  current_recording_path : Option String
  last_record_hotkey_pressed : Bool
  last_playback_hotkey_pressed : Bool
  last_load_hotkey_pressed : Bool
  deriving DecidableEq

/-- The initial `AppState` of `BarApp::new` (lines 114-126). -/
def initAppState : AppState :=
  ⟨false, none, none, 1, 1, 0, none, none, false, false, false⟩

inductive RecToggleOutcome
  | conflictPlayback
  | stoppedRecording
  | startedRecording (pid : Nat)
  | spawnFailedRecording
  deriving DecidableEq

/-- `BarApp::handle_toggle_recording` (lines 316-480).  The playback-conflict
branch returns without touching state; the stop branch reaps the worker and
clears the handle and temp path; the start branch clears any loaded
selection, sets the temp path, and records the spawned handle — on spawn
failure `is_recording` and `current_recording_path` are reset (the cleared
`pending_playback` is left as `None`). -/
def handleToggleRecording (s : AppState) (spawnResult : Option Nat) (tempPath : String) :
    AppState × RecToggleOutcome :=
  if s.playback_process.isSome then (s, .conflictPlayback)
  else if s.is_recording then
    ({ s with is_recording := false, recording_process := none, current_recording_path := none },
     .stoppedRecording)
  else
    match spawnResult with
    | some pid =>
      ({ s with is_recording := true, pending_playback := none,
                current_recording_path := some tempPath, recording_process := some pid },
       .startedRecording pid)
    | none =>
      ({ s with is_recording := false, pending_playback := none, current_recording_path := none },
       .spawnFailedRecording)

inductive PlayToggleOutcome
  | stoppedPlayback
  | startedPlayback (pid : Nat)
  | spawnFailedPlayback
  | noRecordingSelected
  deriving DecidableEq

/-- `BarApp::handle_toggle_playback` (lines 262-314): stop a running playback
worker, else spawn one for the loaded selection, else warn.  Note the
function performs no `is_recording` check. -/
def handleTogglePlayback (s : AppState) (spawnResult : Option Nat) :
    AppState × PlayToggleOutcome :=
  match s.playback_process with
  | some _ => ({ s with playback_process := none }, .stoppedPlayback)
  | none =>
    match s.pending_playback with
    | some _ =>
      match spawnResult with
      | some pid => ({ s with playback_process := some pid }, .startedPlayback pid)
      | none => (s, .spawnFailedPlayback)
    | none => (s, .noRecordingSelected)

/-- C5 counterexample state: recording is active while a selection is loaded. -/
def c5State : AppState :=
  ⟨true, some 1, none, 1, 1, 0, some "loaded.json", some "tmp.json", false, false, false⟩

/-- C5 counterexample: `handle_toggle_playback` invoked while recording is
active does not reject the request — with a loaded selection it spawns a
playback worker and changes state, because the function contains no
recording-conflict check.  The symmetric rejection claimed does not hold. -/
theorem c5_playback_during_recording_counterexample :
    c5State.is_recording = true
    ∧ (handleTogglePlayback c5State (some 7)).2 = .startedPlayback 7
    ∧ (handleTogglePlayback c5State (some 7)).1.playback_process = some 7
    ∧ (handleTogglePlayback c5State (some 7)).1 ≠ c5State := by
  decide

/-- C5 (amended): starting recording while a playback worker is active is
rejected (a conflict warning) with the state left exactly unchanged and no
worker spawned; starting playback while recording is rejected only
indirectly — in every state where recording is active and no selection is
loaded (which the supervisor maintains: starting a recording clears the
selection and loading is blocked while recording), it is a no-op warning
`noRecordingSelected` with the state left exactly unchanged. -/
theorem c5_mutual_exclusion_law (s : AppState) (spawn : Option Nat) (tmp : String) :
    (s.playback_process.isSome = true →
      handleToggleRecording s spawn tmp = (s, .conflictPlayback))
    ∧ (s.is_recording = true → s.pending_playback = none → s.playback_process = none →
      handleTogglePlayback s spawn = (s, .noRecordingSelected)) := by
  constructor
  · intro h
    unfold handleToggleRecording
    rw [if_pos h]
  · intro _ hpend hplay
    unfold handleTogglePlayback
    rw [hplay, hpend]

/-- Witness for C5's amended law at concrete states. -/
theorem c5_mutual_exclusion_law_witness :
    handleToggleRecording
        ⟨false, none, some 4, 1, 1, 0, some "r.json", none, false, false, false⟩
        (some 9) "t.json"
      = (⟨false, none, some 4, 1, 1, 0, some "r.json", none, false, false, false⟩,
         .conflictPlayback)
    ∧ handleTogglePlayback
        ⟨true, some 2, none, 1, 1, 0, none, some "tmp.json", false, false, false⟩ (some 9)
      = (⟨true, some 2, none, 1, 1, 0, none, some "tmp.json", false, false, false⟩,
         .noRecordingSelected) := by
  constructor
  · exact (c5_mutual_exclusion_law _ (some 9) "t.json").1 rfl
  · exact (c5_mutual_exclusion_law _ (some 9) "t.json").2 rfl rfl rfl

/-- C8 counterexample state: a selection is loaded before the attempt. -/
def c8State : AppState :=
  ⟨false, none, none, 1, 1, 0, some "selected.json", none, false, false, false⟩

/-- C8 counterexample: on spawn failure the start path has already cleared the
loaded `pending_playback` selection and does not restore it, so the
post-failure state is not the exact pre-attempt state. -/
theorem c8_pending_not_restored_counterexample :
    (handleToggleRecording c8State none "tmp.json").2 = .spawnFailedRecording
    ∧ c8State.pending_playback = some "selected.json"
    ∧ (handleToggleRecording c8State none "tmp.json").1.pending_playback = none
    ∧ (handleToggleRecording c8State none "tmp.json").1 ≠ c8State := by
  decide

/-- C8 (amended): on spawn failure the failure is reported, no worker handle
is recorded, and `is_recording` and `current_recording_path` are reset; the
cleared `pending_playback` stays `None`, so the revert is exact in every
pre-attempt state with no loaded selection and no pending temp path — which
is every state from which the supervisor actually starts a recording. -/
theorem c8_spawn_failure_revert_law (s : AppState) (tmp : String)
    (h1 : s.playback_process = none) (h2 : s.is_recording = false)
    (h3 : s.pending_playback = none) (h4 : s.current_recording_path = none) :
    handleToggleRecording s none tmp = (s, .spawnFailedRecording) := by
  unfold handleToggleRecording
  rw [if_neg (by rw [h1]; simp), if_neg (by rw [h2]; simp)]
  cases s
  simp_all

/-- Witness for C8's amended law at the initial state. -/
theorem c8_spawn_failure_revert_law_witness :
    handleToggleRecording initAppState none "tmp.json"
      = (initAppState, .spawnFailedRecording) :=
  c8_spawn_failure_revert_law initAppState "tmp.json" rfl rfl rfl rfl

/-! ### Worker liveness (C6)

A `World` pairs the supervisor state with the set of live worker pids and a
fresh-pid counter.  `try_wait` is modelled as an exact observation of
liveness: it reports an exit status iff the pid is no longer live. -/

structure World where
  sup : AppState
  alive : List Nat
  nextPid : Nat
  deriving DecidableEq

def initWorld : World :=
  ⟨initAppState, [], 1⟩

/-- `handle_toggle_recording` at the world level: a successful spawn creates a
live worker with the next fresh pid; the stop path reaps the recording
worker (kill/wait), removing it from the live set. -/
def worldToggleRecording (w : World) (spawnOk : Bool) (tempPath : String) : World :=
  let spawn := if spawnOk then some w.nextPid else none
  let r := handleToggleRecording w.sup spawn tempPath
  match r.2 with
  | .startedRecording pid => ⟨r.1, w.alive ++ [pid], w.nextPid + 1⟩
  | .stoppedRecording =>
    ⟨r.1,
     match w.sup.recording_process with
     | some pid => w.alive.erase pid
     | none => w.alive,
     w.nextPid⟩
  | _ => ⟨r.1, w.alive, w.nextPid⟩

/-- `handle_toggle_playback` at the world level (stop path kills and waits the
playback worker). -/
def worldTogglePlayback (w : World) (spawnOk : Bool) : World :=
  let spawn := if spawnOk then some w.nextPid else none
  let r := handleTogglePlayback w.sup spawn
  match r.2 with
  | .startedPlayback pid => ⟨r.1, w.alive ++ [pid], w.nextPid + 1⟩
  | .stoppedPlayback =>
    ⟨r.1,
     match w.sup.playback_process with
     | some pid => w.alive.erase pid
     | none => w.alive,
     w.nextPid⟩
  | _ => ⟨r.1, w.alive, w.nextPid⟩

/-- `BarApp::check_playback_status` (lines 619-642): non-blocking `try_wait`
on the playback worker only; if it has exited on its own the handle is
cleared.  No operation polls the recording worker. -/
def worldCheckPlaybackStatus (w : World) : World :=
  match w.sup.playback_process with
  | some pid =>
    if pid ∈ w.alive then w
    else ⟨{ w.sup with playback_process := none }, w.alive, w.nextPid⟩
  | none => w

/-- Environment transition: a live worker process exits on its own (the
recorder after its stop hotkey, the player after its last pass). -/
def worldWorkerExits (w : World) (pid : Nat) : World :=
  ⟨w.sup, w.alive.erase pid, w.nextPid⟩

/-- Supervisor states reachable from startup under the modelled operations
and spontaneous worker exits. -/
inductive ReachableWorld : World → Prop
  | init : ReachableWorld initWorld
  | toggleRecording (w : World) (ok : Bool) (tmp : String) :
      ReachableWorld w → ReachableWorld (worldToggleRecording w ok tmp)
  | togglePlayback (w : World) (ok : Bool) :
      ReachableWorld w → ReachableWorld (worldTogglePlayback w ok)
  | checkStatus (w : World) :
      ReachableWorld w → ReachableWorld (worldCheckPlaybackStatus w)
  | workerExits (w : World) (pid : Nat) :
      pid ∈ w.alive → ReachableWorld w → ReachableWorld (worldWorkerExits w pid)

/-- The concrete C6 counterexample world: start a recording worker (pid 1),
then the worker exits on its own (it does so whenever its stop hotkey is
seen). -/
def c6World : World :=
  worldWorkerExits (worldToggleRecording initWorld true "tmp.json") 1

/-- C6 counterexample: a reachable supervisor state whose stored recording
handle references an already-exited process — and the only polling
operation, `check_playback_status`, does not clear it (it polls the playback
worker only).  The claimed invariant fails for the recording worker kind. -/
theorem c6_stale_recording_handle_counterexample :
    ReachableWorld c6World
    ∧ c6World.sup.recording_process = some 1
    ∧ 1 ∉ c6World.alive
    ∧ worldCheckPlaybackStatus c6World = c6World := by
  refine ⟨ReachableWorld.workerExits _ 1 (by decide)
    (ReachableWorld.toggleRecording _ true "tmp.json" ReachableWorld.init),
    by decide, by decide, by decide⟩

/-- C6 (amended): the reaping the claim describes exists for the playback
worker only: after any `check_playback_status`, a stored playback handle
refers to a worker whose non-blocking wait did not report an exit — i.e. a
live worker; the recording worker's handle has no such poll and can go
stale until the stop path of `toggle_recording` reaps it. -/
theorem c6_playback_poll_reaps (w : World) (pid : Nat) :
    (worldCheckPlaybackStatus w).sup.playback_process = some pid →
    pid ∈ (worldCheckPlaybackStatus w).alive := by
  rcases hq : w.sup.playback_process with _ | q
  · have hw : worldCheckPlaybackStatus w = w := by
      unfold worldCheckPlaybackStatus
      rw [hq]
    rw [hw, hq]
    intro h
    cases h
  · by_cases hm : q ∈ w.alive
    · have hw : worldCheckPlaybackStatus w = w := by
        unfold worldCheckPlaybackStatus
        rw [hq]
        exact if_pos hm
      rw [hw, hq]
      intro h
      obtain rfl : q = pid := Option.some.inj h
      exact hm
    · have hw : worldCheckPlaybackStatus w
          = ⟨{ w.sup with playback_process := none }, w.alive, w.nextPid⟩ := by
        unfold worldCheckPlaybackStatus
        rw [hq]
        exact if_neg hm
      rw [hw]
      intro h
      cases h

/-- Witness for C6's amended law: a world with a live playback worker (pid 5)
keeps its handle through the poll, and the handle indeed refers to a live
worker. -/
theorem c6_playback_poll_reaps_witness :
    5 ∈ (worldCheckPlaybackStatus
      ⟨{ initAppState with playback_process := some 5 }, [5], 6⟩).alive :=
  c6_playback_poll_reaps ⟨{ initAppState with playback_process := some 5 }, [5], 6⟩ 5
    (by decide)

/-! ### Hotkey edge latches (C9)

`BarApp::handle_hotkey` (lines 167-247), one invocation per delivered global
hotkey event.  The oracle `HotkeyEnv` supplies the externals consumed by the
handlers a press may invoke. -/

inductive HotId
  | record
  | playback
  | load
  deriving DecidableEq

/-- What a processed (non-suppressed) press did: the invoked handler's
outcome, or the constraint warning that blocked it, or the load/unload
action. -/
inductive HotFire
  | recordToggled (outcome : RecToggleOutcome)
  | recordBlockedByLoaded
  | playbackToggled (outcome : PlayToggleOutcome)
  | loadBlockedByRecording
  | unloaded
  | loadDialog (picked : Option String)
  deriving DecidableEq

structure HotkeyEnv where
  spawnRecording : Option Nat
  spawnPlayback : Option Nat
  tempPath : String
  pickedFile : Option String
  deriving DecidableEq

/-- The per-hotkey press latch of `AppState`. -/
def latchOf (h : HotId) (s : AppState) : Bool :=
  match h with
  | .record => s.last_record_hotkey_pressed
  | .playback => s.last_playback_hotkey_pressed
  | .load => s.last_load_hotkey_pressed

/-- One invocation of `handle_hotkey`: a press is processed only when the
hotkey's latch is clear (and sets it); a release clears the latch and does
nothing else; the record press is blocked when a selection is loaded, the
load press when recording. -/
def handleHotkey (env : HotkeyEnv) (s : AppState) (h : HotId) (pressed : Bool) :
    AppState × Option HotFire :=
  match h with
  | .record =>
    if pressed then
      if s.last_record_hotkey_pressed then (s, none)
      else
        let s := { s with last_record_hotkey_pressed := true }
        if s.pending_playback.isSome then (s, some .recordBlockedByLoaded)
        else
          let r := handleToggleRecording s env.spawnRecording env.tempPath
          (r.1, some (.recordToggled r.2))
    else ({ s with last_record_hotkey_pressed := false }, none)
  | .playback =>
    if pressed then
      if s.last_playback_hotkey_pressed then (s, none)
      else
        let s := { s with last_playback_hotkey_pressed := true }
        let r := handleTogglePlayback s env.spawnPlayback
        (r.1, some (.playbackToggled r.2))
    else ({ s with last_playback_hotkey_pressed := false }, none)
  | .load =>
    if pressed then
      if s.last_load_hotkey_pressed then (s, none)
      else
        let s := { s with last_load_hotkey_pressed := true }
        if s.is_recording then (s, some .loadBlockedByRecording)
        else if s.pending_playback.isSome then
          ({ s with pending_playback := none }, some .unloaded)
        else
          match env.pickedFile with
          | some path => ({ s with pending_playback := some path }, some (.loadDialog (some path)))
          | none => (s, some (.loadDialog none))
    else ({ s with last_load_hotkey_pressed := false }, none)

/-- A run of hotkey events processed in order, collecting the fired actions. -/
def runHotkeys (env : HotkeyEnv) (s : AppState) :
    List (HotId × Bool) → AppState × List HotFire
  | [] => (s, [])
  | (h, b) :: rest =>
    let r := handleHotkey env s h b
    let r2 := runHotkeys env r.1 rest
    (r2.1, r.2.toList ++ r2.2)

theorem toggleRecording_keeps_latches (s : AppState) (r : Option Nat) (t : String) :
    latchOf .record (handleToggleRecording s r t).1 = latchOf .record s := by
  unfold handleToggleRecording
  by_cases h1 : s.playback_process.isSome
  · rw [if_pos h1]
  · rw [if_neg h1]
    by_cases h2 : s.is_recording
    · rw [if_pos h2]
      rfl
    · rw [if_neg h2]
      cases r <;> rfl

theorem togglePlayback_keeps_latches (s : AppState) (r : Option Nat) :
    latchOf .playback (handleTogglePlayback s r).1 = latchOf .playback s := by
  unfold handleTogglePlayback
  cases hq : s.playback_process
  · cases hp : s.pending_playback
    · rfl
    · cases r <;> rfl
  · rfl

/-- A press with the latch already set is suppressed entirely. -/
theorem handleHotkey_suppressed (env : HotkeyEnv) (s : AppState) (h : HotId)
    (hl : latchOf h s = true) : handleHotkey env s h true = (s, none) := by
  cases h <;>
    simp only [handleHotkey, latchOf] at hl ⊢ <;>
    rw [if_pos trivial, if_pos hl]

/-- After a processed press, the hotkey's latch is set. -/
theorem handleHotkey_latch_set (env : HotkeyEnv) (s : AppState) (h : HotId) :
    latchOf h (handleHotkey env s h true).1 = true := by
  cases h
  case record =>
    by_cases hl : s.last_record_hotkey_pressed
    · rw [handleHotkey_suppressed env s .record hl]
      exact hl
    · simp only [handleHotkey]
      rw [if_pos trivial, if_neg hl]
      by_cases hp : s.pending_playback.isSome
      · rw [if_pos (show ({ s with last_record_hotkey_pressed := true }
            : AppState).pending_playback.isSome = true from hp)]
        rfl
      · rw [if_neg (show ¬({ s with last_record_hotkey_pressed := true }
            : AppState).pending_playback.isSome = true from hp)]
        rw [toggleRecording_keeps_latches]
        rfl
  case playback =>
    by_cases hl : s.last_playback_hotkey_pressed
    · rw [handleHotkey_suppressed env s .playback hl]
      exact hl
    · simp only [handleHotkey]
      rw [if_pos trivial, if_neg hl]
      rw [togglePlayback_keeps_latches]
      rfl
  case load =>
    by_cases hl : s.last_load_hotkey_pressed
    · rw [handleHotkey_suppressed env s .load hl]
      exact hl
    · simp only [handleHotkey]
      rw [if_pos trivial, if_neg hl]
      by_cases hr : s.is_recording
      · rw [if_pos (show ({ s with last_load_hotkey_pressed := true }
            : AppState).is_recording = true from hr)]
        rfl
      · rw [if_neg (show ¬({ s with last_load_hotkey_pressed := true }
            : AppState).is_recording = true from hr)]
        by_cases hp : s.pending_playback.isSome
        · rw [if_pos (show ({ s with last_load_hotkey_pressed := true }
              : AppState).pending_playback.isSome = true from hp)]
          rfl
        · rw [if_neg (show ¬({ s with last_load_hotkey_pressed := true }
              : AppState).pending_playback.isSome = true from hp)]
          cases env.pickedFile <;> rfl

/-- A processed press always fires some action (a toggle, a constraint
warning, or the load/unload action). -/
theorem handleHotkey_first_press_fires (env : HotkeyEnv) (s : AppState) (h : HotId)
    (hl : latchOf h s = false) : ((handleHotkey env s h true).2).isSome = true := by
  cases h <;> simp only [latchOf] at hl <;> simp only [handleHotkey] <;>
    rw [if_pos trivial, if_neg (by rw [hl]; simp)]
  case record =>
    by_cases hp : s.pending_playback.isSome
    · simp [hp]
    · simp [hp]
  case playback => rfl
  case load =>
    by_cases hr : s.is_recording
    · simp [hr]
    · by_cases hp : s.pending_playback.isSome
      · simp [hr, hp]
      · cases hf : env.pickedFile <;> simp [hr, hp, hf]

theorem runHotkeys_suppressed (env : HotkeyEnv) (h : HotId) (n : Nat) :
    ∀ s : AppState, latchOf h s = true →
      runHotkeys env s (List.replicate n (h, true)) = (s, []) := by
  induction n with
  | zero => intro s _; rfl
  | succ m ih =>
    intro s hl
    rw [List.replicate_succ, runHotkeys, handleHotkey_suppressed env s h hl]
    simp only [Option.toList_none, List.nil_append]
    exact ih s hl

/-- C9: for each supervisor hotkey, a run of `n ≥ 1` consecutive press events
with no intervening release fires exactly one action — the first press's —
because the per-hotkey latch is set by the first processed press, suppresses
every further press (state and output unchanged), and is cleared only by a
release event for that hotkey, which itself fires nothing. -/
theorem c9_hotkey_edge_once (env : HotkeyEnv) (s : AppState) (h : HotId) (n : Nat)
    (hn : 0 < n) (hl : latchOf h s = false) :
    (runHotkeys env s (List.replicate n (h, true))).2
        = ((handleHotkey env s h true).2).toList
    ∧ ((runHotkeys env s (List.replicate n (h, true))).2).length = 1
    ∧ ((handleHotkey env s h true).2).isSome = true
    ∧ (∀ s2 : AppState, latchOf h s2 = true → handleHotkey env s2 h true = (s2, none))
    ∧ (∀ s2 : AppState, (handleHotkey env s2 h false).2 = none
        ∧ latchOf h (handleHotkey env s2 h false).1 = false) := by
  obtain ⟨m, rfl⟩ : ∃ m, n = m + 1 := ⟨n - 1, by omega⟩
  have hfire := handleHotkey_first_press_fires env s h hl
  have hrest : runHotkeys env (handleHotkey env s h true).1 (List.replicate m (h, true))
      = ((handleHotkey env s h true).1, []) :=
    runHotkeys_suppressed env h m _ (handleHotkey_latch_set env s h)
  have hrun : (runHotkeys env s (List.replicate (m + 1) (h, true))).2
      = ((handleHotkey env s h true).2).toList := by
    rw [List.replicate_succ, runHotkeys, hrest]
    simp
  refine ⟨hrun, ?_, hfire, fun s2 hl2 => handleHotkey_suppressed env s2 h hl2, ?_⟩
  · rw [hrun]
    obtain ⟨f, hf⟩ := Option.isSome_iff_exists.mp hfire
    rw [hf]
    rfl
  · intro s2
    cases h <;> exact ⟨rfl, rfl⟩

/-- Witness for C9: with nothing loaded and spawns succeeding, three
consecutive record presses from the initial state fire exactly one action —
the first press's toggle, which starts recording (pid 3) — and a release
clears the latch and fires nothing. -/
theorem c9_hotkey_edge_once_witness :
    (runHotkeys ⟨some 3, some 4, "tmp.json", none⟩ initAppState
        (List.replicate 3 (HotId.record, true))).2
      = [.recordToggled (.startedRecording 3)]
    ∧ (handleHotkey ⟨some 3, some 4, "tmp.json", none⟩ initAppState HotId.record false).2
      = none := by
  constructor
  · rw [(c9_hotkey_edge_once ⟨some 3, some 4, "tmp.json", none⟩ initAppState
      HotId.record 3 (by omega) rfl).1]
    rfl
  · exact ((c9_hotkey_edge_once ⟨some 3, some 4, "tmp.json", none⟩ initAppState
      HotId.record 3 (by omega) rfl).2.2.2.2 initAppState).1

end EventReplay
